import Mathlib

/-!
Verification of the client-side protocol logic of the llm-app-proto
repository: the streaming chat reader (`useChat.sendMessage` in
`langchain-chat/frontend/src/hooks/useChat.ts` and its variant embedded in
`langchain-chat-dummy/frontend/src/components/ChatMessage.tsx`), the
asynchronous job status poller (`RAGBotService.waitForBotReady`), the
session title derivation, the upload extension check
(`BotDetails.handleFileUpload`) and the chat-history store
(`useChatHistory.saveSession` / `deleteSession`).

JavaScript strings are modelled as `List Char` wherever only code-point
level behaviour matters; the title-derivation model uses `List Nat` of
UTF-16 code units, because `String.prototype.slice` indexes code units.
-/

namespace LlmAppProto

/-! ### Streaming chat reader (useChat.sendMessage read loop) -/

/-- State of the stream-reading loop in `useChat.sendMessage`:
`fullResponse` is the local accumulator variable, `streamingMessage` and
`isStreaming` mirror the values passed to the React state setters, and
`messages` records the contents of the assistant `Message`s appended via
`setMessages`. -/
structure ChatStreamState where
  fullResponse : List Char
  streamingMessage : List Char
  isStreaming : Bool
  messages : List (List Char)
  deriving Repr, DecidableEq

/-- The state at the top of the read loop: empty accumulator, streaming on,
no assistant message appended yet. -/
def initialStreamState : ChatStreamState :=
  { fullResponse := [], streamingMessage := [], isStreaming := true, messages := [] }

/-- JavaScript `String.prototype.split` with a one-character separator
(`chunk.split('\n')` in the source). -/
def jsSplit (c : Char) : List Char → List (List Char)
  | [] => [[]]
  | x :: xs =>
    if x = c then [] :: jsSplit c xs
    else
      match jsSplit c xs with
      | [] => [[x]]
      | y :: ys => (x :: y) :: ys

/-- The `data: ` line marker checked with `line.startsWith('data: ')`. -/
def dataMarker : List Char := "data: ".data

/-- The `[DONE]` end-of-stream sentinel payload. -/
def doneSentinel : List Char := "[DONE]".data

/-- A wire frame carrying a payload: the line `data: <payload>`. -/
def mkFrame (payload : List Char) : List Char := dataMarker ++ payload

/-- One line of the `langchain-chat` read loop: lines without the marker are
ignored; `data = line.slice(6)`; the `[DONE]` payload finalizes the
assistant message and leaves the line loop (`break`, second component
`true`); any other payload is appended to `fullResponse` and re-emitted
via `setStreamingMessage`. -/
def processLine (s : ChatStreamState) (line : List Char) : ChatStreamState × Bool :=
  if dataMarker.isPrefixOf line then
    let data := line.drop 6
    if data = doneSentinel then
      ({ s with isStreaming := false,
                messages := s.messages ++ [s.fullResponse],
                streamingMessage := [] }, true)
    else
      ({ s with fullResponse := s.fullResponse ++ data,
                streamingMessage := s.fullResponse ++ data }, false)
  else (s, false)

/-- The `for (const line of lines)` loop; a `true` flag from `processLine`
is the `break`, which abandons the remaining lines of this chunk only. -/
def processLines : ChatStreamState → List (List Char) → ChatStreamState
  | s, [] => s
  | s, l :: ls =>
    let r := processLine s l
    if r.2 = true then r.1 else processLines r.1 ls

/-- Handling of one decoded chunk: split on newlines and run the line loop. -/
def processChunk (s : ChatStreamState) (chunk : List Char) : ChatStreamState :=
  processLines s (jsSplit '\n' chunk)

/-- The `while (true)` read loop over all chunks delivered before the reader
reports `done`. -/
def processChunks (s : ChatStreamState) (chunks : List (List Char)) : ChatStreamState :=
  chunks.foldl processChunk s

/-- Run the `langchain-chat` stream reader from its initial state. -/
def runStreamReader (chunks : List (List Char)) : ChatStreamState :=
  processChunks initialStreamState chunks

/-! ### Streaming chat reader, `langchain-chat-dummy` variant

The variant embedded in `ChatMessage.tsx` differs in two ways: on the
`[DONE]` sentinel it first fetches the canonical latest message
(`chatService.getLatestMessage`) and falls back to the accumulated buffer
only when that lookup throws, and it skips empty payloads
(`else if (data !== '')`). The outcome of the lookup is modelled by an
`Option (List Char)` oracle: `some c` is a successful lookup returning
`c`, `none` is a failed lookup. -/

/-- One line of the `langchain-chat-dummy` read loop. -/
def processLineDummy (latest : Option (List Char)) (s : ChatStreamState)
    (line : List Char) : ChatStreamState × Bool :=
  if dataMarker.isPrefixOf line then
    let data := line.drop 6
    if data = doneSentinel then
      let content :=
        match latest with
        | some c => c
        | none => s.fullResponse
      ({ s with isStreaming := false,
                messages := s.messages ++ [content],
                streamingMessage := [] }, true)
    else if data ≠ [] then
      ({ s with fullResponse := s.fullResponse ++ data,
                streamingMessage := s.fullResponse ++ data }, false)
    else (s, false)
  else (s, false)

/-- The dummy variant's line loop with `break`. -/
def processLinesDummy (latest : Option (List Char)) :
    ChatStreamState → List (List Char) → ChatStreamState
  | s, [] => s
  | s, l :: ls =>
    let r := processLineDummy latest s l
    if r.2 = true then r.1 else processLinesDummy latest r.1 ls

/-- One decoded chunk in the dummy variant. -/
def processChunkDummy (latest : Option (List Char)) (s : ChatStreamState)
    (chunk : List Char) : ChatStreamState :=
  processLinesDummy latest s (jsSplit '\n' chunk)

/-- The dummy variant's read loop over all delivered chunks. -/
def runStreamReaderDummy (latest : Option (List Char))
    (chunks : List (List Char)) : ChatStreamState :=
  chunks.foldl (processChunkDummy latest) initialStreamState

/-! ### Session title derivation (useChat.sendMessage)

`content.slice(0, 30) + (content.length > 30 ? '...' : '')` operates on a
JavaScript string, i.e. on UTF-16 code units, so the model works on
`List Nat` of code units. -/

/-- UTF-16 encoding of one Unicode scalar value: characters below `0x10000`
are one code unit, the rest become a surrogate pair. -/
def utf16EncodeChar (c : Char) : List Nat :=
  let v := c.toNat
  if v < 65536 then [v]
  else [55296 + (v - 65536) / 1024, 56320 + (v - 65536) % 1024]

/-- The UTF-16 code-unit sequence of a string, i.e. what JavaScript string
indexing and `.length` see. -/
def utf16Encode (s : String) : List Nat :=
  (s.data.map utf16EncodeChar).flatten

/-- The fixed truncation bound `30` of `content.slice(0, 30)`. -/
def titleMaxLength : Nat := 30

/-- The `'...'` marker appended when truncation occurred. -/
def ellipsisMarker : List Nat := utf16Encode "..."

/-- `content.slice(0, 30) + (content.length > 30 ? '...' : '')` on UTF-16
code units. -/
def deriveTitle (content : List Nat) : List Nat :=
  content.take titleMaxLength ++
    (if titleMaxLength < content.length then ellipsisMarker else [])

/-- A code-unit sequence is well-formed UTF-16 when every high surrogate is
immediately followed by a low surrogate and no low surrogate appears on
its own: exactly the sequences that denote a sequence of Unicode
characters without a split multi-byte (astral) character. -/
def wellFormedUtf16 : List Nat → Bool
  | [] => true
  | [u] => decide (u < 55296 ∨ 57344 ≤ u)
  | u :: v :: rest =>
    if u < 55296 ∨ 57344 ≤ u then wellFormedUtf16 (v :: rest)
    else if u < 56320 then
      (if 56320 ≤ v ∧ v < 57344 then wellFormedUtf16 rest else false)
    else false

/-! ### Asynchronous job status poller (RAGBotService.waitForBotReady) -/

/-- `BotStatus` from `types/ragBot.ts`. -/
inductive BotStatus
  | creating
  | processing
  | ready
  | error
  deriving Repr, DecidableEq

/-- `ProcessingProgress` from `types/ragBot.ts`. -/
structure ProcessingProgress where
  current_step : String
  total_steps : Nat
  completed_steps : Nat
  message : String
  deriving Repr, DecidableEq

/-- The response shape of `GET /bots/{id}/status` as consumed by
`getBotStatus`. -/
structure StatusInfo where
  status : BotStatus
  processing_progress : Option ProcessingProgress := none
  error_message : Option String := none
  deriving Repr, DecidableEq

/-- Outcome of one `getBotStatus` call: a parsed response, or the fetch
throwing (network/transport error or non-2xx). -/
inductive FetchOutcome
  | ok (info : StatusInfo)
  | fail (e : String)
  deriving Repr, DecidableEq

/-- How the promise returned by `waitForBotReady` ends: `resolved`,
`rejected`, or still `pending` (the scripted responses ran out while the
poller had scheduled another attempt). -/
inductive WaitOutcome
  | resolved
  | rejected (msg : String)
  | pending
  deriving Repr, DecidableEq

/-- The generic fallback of `statusInfo.error_message || 'Bot processing
failed'`. -/
def genericFailureMessage : String := "Bot processing failed"

/-- JavaScript `a || b` on an optional string: the fallback is used when
the value is absent or the empty string (falsy). -/
def jsOrElse (a : Option String) (b : String) : String :=
  match a with
  | some s => if s = "" then b else s
  | none => b

/-- `RAGBotService.waitForBotReady` run against a script of fetch outcomes,
one per poll attempt in order. The result is the final promise outcome,
the number of status fetches actually issued, and the arguments passed to
`onProgress` in order. `hasCallback` tells whether an `onProgress`
callback was supplied. -/
def waitForBotReady (hasCallback : Bool) :
    List FetchOutcome → WaitOutcome × Nat × List ProcessingProgress
  | [] => (.pending, 0, [])
  | .fail e :: _ => (.rejected e, 1, [])
  | .ok info :: rest =>
    match info.status with
    | .ready => (.resolved, 1, [])
    | .error => (.rejected (jsOrElse info.error_message genericFailureMessage), 1, [])
    | .processing =>
      let r := waitForBotReady hasCallback rest
      match info.processing_progress, hasCallback with
      | some p, true => (r.1, r.2.1 + 1, p :: r.2.2)
      | _, _ => (r.1, r.2.1 + 1, r.2.2)
    | .creating =>
      let r := waitForBotReady hasCallback rest
      (r.1, r.2.1 + 1, r.2.2)

/-- A poll outcome that keeps the loop going: a parsed response whose
status is `creating` or `processing`. -/
def nonTerminalOutcome : FetchOutcome → Bool
  | .ok info =>
    match info.status with
    | .creating => true
    | .processing => true
    | _ => false
  | .fail _ => false

/-! ### Upload extension validation (BotDetails.handleFileUpload) -/

/-- `const allowedExtensions = ['.pdf', '.md', '.xlsx', '.xls']`. -/
def allowedExtensions : List (List Char) :=
  [".pdf".data, ".md".data, ".xlsx".data, ".xls".data]

/-- `'.' + file.name.split('.').pop()?.toLowerCase()`. -/
def fileExtensionOf (name : List Char) : List Char :=
  '.' :: ((jsSplit '.' name).getLastD []).map Char.toLower

/-- What `handleFileUpload` does with a selected file, up to the first
network interaction: a purely local rejection with an error message, or
the `ragBotService.uploadDocument` network call. -/
inductive UploadAction
  | localError (msg : List Char)
  | networkUpload
  deriving Repr, DecidableEq

/-- The validation part of `BotDetails.handleFileUpload`: files whose
extension is not allowed are rejected locally before any network call;
all others proceed to the upload request. -/
def handleFileUpload (name : List Char) : UploadAction :=
  if fileExtensionOf name ∉ allowedExtensions then
    .localError ("Unsupported file type. Allowed: ".data ++
      List.intercalate ", ".data allowedExtensions)
  else
    .networkUpload

/-! ### Chat history store (useChatHistory) -/

/-- A persisted `ChatSession` snapshot; timestamps are epoch milliseconds,
messages are (role, content) pairs. -/
structure StoredChatSession where
  id : String
  title : String
  messages : List (String × String)
  createdAt : Nat
  updatedAt : Nat
  deriving Repr, DecidableEq

/-- The stable sort `updated.sort((a, b) => b.updatedAt - a.updatedAt)`:
most recently updated first. -/
def sortSessions (l : List StoredChatSession) : List StoredChatSession :=
  List.insertionSort (fun a b => b.updatedAt ≤ a.updatedAt) l

/-- `useChatHistory.saveSession`: replace the entry with the same id,
re-stamping `updatedAt` with the current time, or append the session when
its id is new; then sort by `updatedAt` descending. -/
def saveSession (now : Nat) (session : StoredChatSession)
    (prev : List StoredChatSession) : List StoredChatSession :=
  let updated :=
    if prev.any (fun s => s.id == session.id) then
      prev.map (fun s => if s.id == session.id then { session with updatedAt := now } else s)
    else
      prev ++ [session]
  sortSessions updated

/-- `useChatHistory.deleteSession`: drop every entry with the given id. -/
def deleteSession (sid : String) (prev : List StoredChatSession) :
    List StoredChatSession :=
  prev.filter (fun s => s.id != sid)

/-- One store operation. -/
inductive HistoryOp
  | save (now : Nat) (session : StoredChatSession)
  | delete (sid : String)

/-- Apply one operation to the stored session list. -/
def applyOp (store : List StoredChatSession) : HistoryOp → List StoredChatSession
  | .save now session => saveSession now session store
  | .delete sid => deleteSession sid store

/-- Run a sequence of store operations from the empty store. -/
def applyOps (ops : List HistoryOp) : List StoredChatSession :=
  ops.foldl applyOp []

/-- The ids of the stored sessions, in order. -/
def sessionIds (l : List StoredChatSession) : List String :=
  l.map (fun s => s.id)

/-! ### Abbreviations used by the proofs -/

/-- The effect of one ordinary (non-sentinel) payload on the reader state:
append to `fullResponse` and re-emit it as the streaming message. -/
def appendPayload (s : ChatStreamState) (p : List Char) : ChatStreamState :=
  { s with fullResponse := s.fullResponse ++ p,
           streamingMessage := s.fullResponse ++ p }

/-- The dummy variant additionally skips empty payloads. -/
def appendPayloadDummy (s : ChatStreamState) (p : List Char) : ChatStreamState :=
  if p = [] then s else appendPayload s p

/-! ## Lemmas about the stream reader -/

theorem jsSplit_of_not_mem {c : Char} {l : List Char} (h : c ∉ l) :
    jsSplit c l = [l] := by
  induction l with
  | nil => rfl
  | cons x xs ih =>
    have hx : ¬ x = c := fun hxc => h (hxc ▸ List.mem_cons_self x xs)
    have hxs : c ∉ xs := fun hc => h (List.mem_cons_of_mem x hc)
    simp [jsSplit, hx, ih hxs]

theorem jsSplit_append_cons {c : Char} {a : List Char} (h : c ∉ a) (r : List Char) :
    jsSplit c (a ++ c :: r) = a :: jsSplit c r := by
  induction a with
  | nil => simp [jsSplit]
  | cons x xs ih =>
    have hx : ¬ x = c := fun hxc => h (hxc ▸ List.mem_cons_self x xs)
    have hxs : c ∉ xs := fun hc => h (List.mem_cons_of_mem x hc)
    simp [jsSplit, hx, ih hxs]

theorem isPrefixOf_append_self (l t : List Char) : l.isPrefixOf (l ++ t) = true := by
  induction l with
  | nil => simp [List.isPrefixOf]
  | cons a l ih => simp [List.isPrefixOf, ih]

theorem isPrefixOf_mkFrame (p : List Char) : dataMarker.isPrefixOf (mkFrame p) = true :=
  isPrefixOf_append_self dataMarker p

theorem drop_mkFrame (p : List Char) : (mkFrame p).drop 6 = p := by
  have h6 : (6 : Nat) = dataMarker.length := rfl
  rw [mkFrame, h6, List.drop_left]

theorem processLine_mkFrame (s : ChatStreamState) (p : List Char)
    (hd : p ≠ doneSentinel) :
    processLine s (mkFrame p) = (appendPayload s p, false) := by
  unfold processLine
  rw [isPrefixOf_mkFrame]
  simp only [if_true, drop_mkFrame, if_neg hd, appendPayload]

theorem processLine_mkFrame_done (s : ChatStreamState) :
    processLine s (mkFrame doneSentinel) =
      ({ s with isStreaming := false,
                messages := s.messages ++ [s.fullResponse],
                streamingMessage := [] }, true) := by
  unfold processLine
  rw [isPrefixOf_mkFrame]
  simp only [if_true, drop_mkFrame, if_pos rfl]

theorem processLines_of_break {s s' : ChatStreamState} {l : List Char}
    (ls : List (List Char)) (h : processLine s l = (s', true)) :
    processLines s (l :: ls) = s' := by
  simp [processLines, h]

theorem processLines_of_cont {s s' : ChatStreamState} {l : List Char}
    (ls : List (List Char)) (h : processLine s l = (s', false)) :
    processLines s (l :: ls) = processLines s' ls := by
  simp [processLines, h]

theorem processLines_singleton (s : ChatStreamState) (l : List Char) :
    processLines s [l] = (processLine s l).1 := by
  simp only [processLines]
  split <;> rfl

theorem processChunk_mkFrame (s : ChatStreamState) (p : List Char)
    (hn : '\n' ∉ p) (hd : p ≠ doneSentinel) :
    processChunk s (mkFrame p) = appendPayload s p := by
  have hmem : '\n' ∉ mkFrame p := by
    intro hc
    rcases List.mem_append.mp hc with hc | hc
    · exact absurd hc (by decide)
    · exact hn hc
  unfold processChunk
  rw [jsSplit_of_not_mem hmem, processLines_singleton, processLine_mkFrame s p hd]

theorem processChunk_mkFrame_done (s : ChatStreamState) :
    processChunk s (mkFrame doneSentinel) =
      { s with isStreaming := false,
               messages := s.messages ++ [s.fullResponse],
               streamingMessage := [] } := by
  have hmem : '\n' ∉ mkFrame doneSentinel := by decide
  unfold processChunk
  rw [jsSplit_of_not_mem hmem, processLines_singleton, processLine_mkFrame_done]

theorem processChunks_map_mkFrame (ps : List (List Char))
    (h : ∀ p ∈ ps, '\n' ∉ p ∧ p ≠ doneSentinel) (s : ChatStreamState) :
    processChunks s (ps.map mkFrame) = ps.foldl appendPayload s := by
  induction ps generalizing s with
  | nil => rfl
  | cons p ps ih =>
    have hp := h p (List.mem_cons_self p ps)
    show List.foldl processChunk s (mkFrame p :: ps.map mkFrame) = _
    rw [List.foldl_cons, processChunk_mkFrame s p hp.1 hp.2]
    exact ih (fun q hq => h q (List.mem_cons_of_mem p hq)) _

theorem foldl_appendPayload_fullResponse (ps : List (List Char)) (s : ChatStreamState) :
    (ps.foldl appendPayload s).fullResponse = s.fullResponse ++ ps.flatten := by
  induction ps generalizing s with
  | nil => simp
  | cons p ps ih => simp [ih, appendPayload, List.append_assoc]

theorem foldl_appendPayload_messages (ps : List (List Char)) (s : ChatStreamState) :
    (ps.foldl appendPayload s).messages = s.messages := by
  induction ps generalizing s with
  | nil => rfl
  | cons p ps ih => simp [ih, appendPayload]

theorem foldl_appendPayload_isStreaming (ps : List (List Char)) (s : ChatStreamState) :
    (ps.foldl appendPayload s).isStreaming = s.isStreaming := by
  induction ps generalizing s with
  | nil => rfl
  | cons p ps ih => simp [ih, appendPayload]

theorem foldl_appendPayload_streamingMessage (ps : List (List Char))
    (s : ChatStreamState) (h : s.streamingMessage = s.fullResponse) :
    (ps.foldl appendPayload s).streamingMessage =
      (ps.foldl appendPayload s).fullResponse := by
  induction ps generalizing s with
  | nil => exact h
  | cons p ps ih => exact ih _ rfl

/-! Lemmas about the dummy-variant reader. -/

theorem processLineDummy_mkFrame (latest : Option (List Char))
    (s : ChatStreamState) (p : List Char) (hd : p ≠ doneSentinel) :
    processLineDummy latest s (mkFrame p) = (appendPayloadDummy s p, false) := by
  unfold processLineDummy
  rw [isPrefixOf_mkFrame]
  simp only [if_true, drop_mkFrame, if_neg hd, appendPayloadDummy, appendPayload]
  by_cases hp : p = []
  · simp [hp]
  · simp [hp]

theorem processLineDummy_mkFrame_done (latest : Option (List Char))
    (s : ChatStreamState) :
    processLineDummy latest s (mkFrame doneSentinel) =
      ({ s with isStreaming := false,
                messages := s.messages ++ [latest.getD s.fullResponse],
                streamingMessage := [] }, true) := by
  unfold processLineDummy
  rw [isPrefixOf_mkFrame]
  simp only [if_true, drop_mkFrame, if_pos rfl]
  cases latest <;> rfl

theorem processLinesDummy_singleton (latest : Option (List Char))
    (s : ChatStreamState) (l : List Char) :
    processLinesDummy latest s [l] = (processLineDummy latest s l).1 := by
  simp only [processLinesDummy]
  split <;> rfl

theorem processChunkDummy_mkFrame (latest : Option (List Char))
    (s : ChatStreamState) (p : List Char) (hn : '\n' ∉ p) (hd : p ≠ doneSentinel) :
    processChunkDummy latest s (mkFrame p) = appendPayloadDummy s p := by
  have hmem : '\n' ∉ mkFrame p := by
    intro hc
    rcases List.mem_append.mp hc with hc | hc
    · exact absurd hc (by decide)
    · exact hn hc
  unfold processChunkDummy
  rw [jsSplit_of_not_mem hmem, processLinesDummy_singleton,
    processLineDummy_mkFrame latest s p hd]

theorem processChunkDummy_mkFrame_done (latest : Option (List Char))
    (s : ChatStreamState) :
    processChunkDummy latest s (mkFrame doneSentinel) =
      { s with isStreaming := false,
               messages := s.messages ++ [latest.getD s.fullResponse],
               streamingMessage := [] } := by
  have hmem : '\n' ∉ mkFrame doneSentinel := by decide
  unfold processChunkDummy
  rw [jsSplit_of_not_mem hmem, processLinesDummy_singleton,
    processLineDummy_mkFrame_done]

theorem foldl_processChunkDummy_map_mkFrame (latest : Option (List Char))
    (ps : List (List Char)) (h : ∀ p ∈ ps, '\n' ∉ p ∧ p ≠ doneSentinel)
    (s : ChatStreamState) :
    (ps.map mkFrame).foldl (processChunkDummy latest) s =
      ps.foldl appendPayloadDummy s := by
  induction ps generalizing s with
  | nil => rfl
  | cons p ps ih =>
    have hp := h p (List.mem_cons_self p ps)
    show List.foldl (processChunkDummy latest) s (mkFrame p :: ps.map mkFrame) = _
    rw [List.foldl_cons, processChunkDummy_mkFrame latest s p hp.1 hp.2]
    exact ih (fun q hq => h q (List.mem_cons_of_mem p hq)) _

theorem foldl_appendPayloadDummy_fullResponse (ps : List (List Char))
    (s : ChatStreamState) :
    (ps.foldl appendPayloadDummy s).fullResponse = s.fullResponse ++ ps.flatten := by
  induction ps generalizing s with
  | nil => simp
  | cons p ps ih =>
    by_cases hp : p = []
    · simp [hp, appendPayloadDummy, ih]
    · simp [appendPayloadDummy, hp, appendPayload, ih, List.append_assoc]

theorem foldl_appendPayloadDummy_messages (ps : List (List Char))
    (s : ChatStreamState) :
    (ps.foldl appendPayloadDummy s).messages = s.messages := by
  induction ps generalizing s with
  | nil => rfl
  | cons p ps ih =>
    by_cases hp : p = []
    · simp [hp, appendPayloadDummy, ih]
    · simp [appendPayloadDummy, hp, appendPayload, ih]

/-! ## Claims about the streaming chat reader -/

/-- C1 (counterexample): a `data: ` frame whose payload contains an embedded
newline is not appended verbatim. Delivering the single frame with payload
`"a\nb"` leaves the buffer `"a"`: the reader splits the chunk on newlines,
and the continuation `"b"` lacks the `data: ` marker and is dropped, so
the buffer differs from the concatenation of the payloads. -/
theorem stream_newline_payload_not_verbatim :
    (runStreamReader (([['a', '\n', 'b']] : List (List Char)).map mkFrame)).fullResponse
        = ['a'] ∧
    (runStreamReader (([['a', '\n', 'b']] : List (List Char)).map mkFrame)).fullResponse
        ≠ ([['a', '\n', 'b']] : List (List Char)).flatten := by
  decide

/-- C1 (amended): for every finite sequence of `data: ` frames whose
payloads contain no newline character — the only payloads a `data: ` line
frame can carry — and none of which equals `[DONE]`, the accumulated
buffer after processing all frames equals the concatenation of the
payloads in arrival order. -/
theorem stream_buffer_concat (ps : List (List Char))
    (h : ∀ p ∈ ps, '\n' ∉ p ∧ p ≠ doneSentinel) :
    (runStreamReader (ps.map mkFrame)).fullResponse = ps.flatten := by
  unfold runStreamReader
  rw [processChunks_map_mkFrame ps h, foldl_appendPayload_fullResponse]
  rfl

/-- Witness for `stream_buffer_concat` at the concrete frame payloads
`["Hel", "lo"]`. -/
theorem stream_buffer_concat_witness :
    (∀ p ∈ (["Hel".data, "lo".data] : List (List Char)), '\n' ∉ p ∧ p ≠ doneSentinel) ∧
    (runStreamReader ((["Hel".data, "lo".data] : List (List Char)).map mkFrame)).fullResponse
      = (["Hel".data, "lo".data] : List (List Char)).flatten :=
  ⟨by decide, stream_buffer_concat ["Hel".data, "lo".data] (by decide)⟩

/-- C2 (counterexample): the reader does not stop reading at the `[DONE]`
frame. With the frames `["Hello", " world", "[DONE]", "X"]` delivered as
successive chunks, the frame after the sentinel is still processed and its
payload lands in the accumulated buffer, which becomes `"Hello worldX"`
instead of staying `"Hello world"`. -/
theorem stream_reads_after_sentinel :
    (runStreamReader ((["Hello".data, " world".data, doneSentinel, "X".data] :
        List (List Char)).map mkFrame)).fullResponse = "Hello worldX".data ∧
    (runStreamReader ((["Hello".data, " world".data, doneSentinel, "X".data] :
        List (List Char)).map mkFrame)).fullResponse ≠ "Hello world".data := by
  decide

/-- C2 (amended): for the frames `["Hello", " world", "[DONE]"]` the reader
never appends the literal `[DONE]`, finalizes the assistant message
`"Hello world"`, and the accumulated text prior to reconciliation equals
`"Hello world"`; lines arriving after the sentinel in the same chunk are
skipped (the `break` leaves the line loop), but the read loop itself keeps
consuming chunks delivered after the sentinel. -/
theorem stream_sentinel_behavior :
    (runStreamReader ((["Hello".data, " world".data, doneSentinel] :
        List (List Char)).map mkFrame) =
      { fullResponse := "Hello world".data, streamingMessage := [],
        isStreaming := false, messages := ["Hello world".data] }) ∧
    (∀ tailText : List Char,
      (runStreamReader [mkFrame "Hello".data ++ '\n' ::
          (mkFrame doneSentinel ++ '\n' :: tailText)]).messages = ["Hello".data] ∧
      (runStreamReader [mkFrame "Hello".data ++ '\n' ::
          (mkFrame doneSentinel ++ '\n' :: tailText)]).fullResponse = "Hello".data) := by
  constructor
  · decide
  · intro tailText
    have hsplit : jsSplit '\n' (mkFrame "Hello".data ++ '\n' ::
        (mkFrame doneSentinel ++ '\n' :: tailText)) =
        mkFrame "Hello".data :: mkFrame doneSentinel :: jsSplit '\n' tailText := by
      rw [jsSplit_append_cons (by decide), jsSplit_append_cons (by decide)]
    have h1 : processLine initialStreamState (mkFrame "Hello".data) =
        ({ fullResponse := "Hello".data, streamingMessage := "Hello".data,
           isStreaming := true, messages := [] }, false) := by decide
    have h2 : processLine
        { fullResponse := "Hello".data, streamingMessage := "Hello".data,
          isStreaming := true, messages := [] } (mkFrame doneSentinel) =
        ({ fullResponse := "Hello".data, streamingMessage := [],
           isStreaming := false, messages := ["Hello".data] }, true) := by decide
    show (processChunk initialStreamState _).messages = _ ∧
      (processChunk initialStreamState _).fullResponse = _
    unfold processChunk
    rw [hsplit, processLines_of_cont _ h1, processLines_of_break _ h2]
    exact ⟨rfl, rfl⟩

/-- C4 (counterexample): a stream that ends without the `[DONE]` sentinel
produces no finalized assistant message at all. After the single frame
`"Hi"` followed by the reader reporting done, the transcript message list
is empty — the accumulated text `"Hi"` exists only in the transient
streaming buffer. -/
theorem stream_premature_close_no_message :
    (runStreamReader (["Hi".data].map mkFrame)).messages = [] ∧
    "Hi".data ∉ (runStreamReader (["Hi".data].map mkFrame)).messages ∧
    (runStreamReader (["Hi".data].map mkFrame)).fullResponse = "Hi".data := by
  decide

/-- C4 (amended): when the stream ends without any `[DONE]` frame, no
finalized assistant message is appended to the transcript: the message
list stays empty, `isStreaming` remains true, and the accumulated text
survives only in the transient streaming buffer. -/
theorem stream_premature_close_state (ps : List (List Char))
    (h : ∀ p ∈ ps, '\n' ∉ p ∧ p ≠ doneSentinel) :
    (runStreamReader (ps.map mkFrame)).messages = [] ∧
    (runStreamReader (ps.map mkFrame)).isStreaming = true ∧
    (runStreamReader (ps.map mkFrame)).streamingMessage = ps.flatten := by
  unfold runStreamReader
  rw [processChunks_map_mkFrame ps h]
  refine ⟨?_, ?_, ?_⟩
  · rw [foldl_appendPayload_messages]
    rfl
  · rw [foldl_appendPayload_isStreaming]
    rfl
  · rw [foldl_appendPayload_streamingMessage _ _ rfl, foldl_appendPayload_fullResponse]
    rfl

/-- Witness for `stream_premature_close_state` at the concrete frame
payloads `["Hi", "!"]`. -/
theorem stream_premature_close_state_witness :
    (∀ p ∈ (["Hi".data, "!".data] : List (List Char)), '\n' ∉ p ∧ p ≠ doneSentinel) ∧
    ((runStreamReader ((["Hi".data, "!".data] : List (List Char)).map mkFrame)).messages = [] ∧
     (runStreamReader ((["Hi".data, "!".data] : List (List Char)).map mkFrame)).isStreaming = true ∧
     (runStreamReader ((["Hi".data, "!".data] : List (List Char)).map mkFrame)).streamingMessage
       = (["Hi".data, "!".data] : List (List Char)).flatten) :=
  ⟨by decide, stream_premature_close_state ["Hi".data, "!".data] (by decide)⟩

/-- C3: in the dummy variant, after a stream completed by `[DONE]`, the
assistant message appended to the transcript is the result of the
canonical latest-message lookup when that lookup succeeds, and the locally
accumulated streamed buffer when the lookup fails. -/
theorem stream_reconciliation_fallback (ps : List (List Char))
    (latest : Option (List Char))
    (h : ∀ p ∈ ps, '\n' ∉ p ∧ p ≠ doneSentinel) :
    (runStreamReaderDummy latest (ps.map mkFrame ++ [mkFrame doneSentinel])).messages
      = [latest.getD ps.flatten] := by
  unfold runStreamReaderDummy
  rw [List.foldl_append, foldl_processChunkDummy_map_mkFrame latest ps h]
  rw [List.foldl_cons, List.foldl_nil, processChunkDummy_mkFrame_done]
  rw [foldl_appendPayloadDummy_messages, foldl_appendPayloadDummy_fullResponse]
  rfl

/-- Witness for `stream_reconciliation_fallback` at the concrete frame
payloads `["Hel", "lo"]` with a failed lookup. -/
theorem stream_reconciliation_fallback_witness :
    (∀ p ∈ (["Hel".data, "lo".data] : List (List Char)), '\n' ∉ p ∧ p ≠ doneSentinel) ∧
    (runStreamReaderDummy none
        ((["Hel".data, "lo".data] : List (List Char)).map mkFrame ++
          [mkFrame doneSentinel])).messages
      = [Option.getD none ((["Hel".data, "lo".data] : List (List Char)).flatten)] :=
  ⟨by decide, stream_reconciliation_fallback ["Hel".data, "lo".data] none (by decide)⟩


/-! ## Lemmas about the status poller -/

theorem waitForBotReady_append (hasCb : Bool) (s2 : List FetchOutcome) :
    ∀ s1 : List FetchOutcome, (∀ o ∈ s1, nonTerminalOutcome o = true) →
      waitForBotReady hasCb (s1 ++ s2) =
        ((waitForBotReady hasCb s2).1,
         s1.length + (waitForBotReady hasCb s2).2.1,
         (waitForBotReady hasCb s1).2.2 ++ (waitForBotReady hasCb s2).2.2) := by
  intro s1
  induction s1 with
  | nil =>
    intro _
    simp [waitForBotReady]
  | cons o s1 ih =>
    intro h
    have ho := h o (List.mem_cons_self o s1)
    have hrest : ∀ o' ∈ s1, nonTerminalOutcome o' = true :=
      fun o' ho' => h o' (List.mem_cons_of_mem o ho')
    cases o with
    | fail e => simp [nonTerminalOutcome] at ho
    | ok info =>
      obtain ⟨st, pp, em⟩ := info
      cases st with
      | ready => simp [nonTerminalOutcome] at ho
      | error => simp [nonTerminalOutcome] at ho
      | creating =>
        simp only [List.cons_append, waitForBotReady, List.append_eq]
        rw [ih hrest]
        simp only [Prod.mk.injEq, List.length_cons, List.cons_append, true_and]
        exact ⟨by omega, trivial⟩
      | processing =>
        cases pp with
        | none =>
          simp only [List.cons_append, waitForBotReady, List.append_eq]
          rw [ih hrest]
          simp only [Prod.mk.injEq, List.length_cons, List.cons_append, true_and]
          exact ⟨by omega, trivial⟩
        | some p =>
          cases hasCb with
          | false =>
            simp only [List.cons_append, waitForBotReady, List.append_eq]
            rw [ih hrest]
            simp only [Prod.mk.injEq, List.length_cons, List.cons_append, true_and]
            exact ⟨by omega, trivial⟩
          | true =>
            simp only [List.cons_append, waitForBotReady, List.append_eq]
            rw [ih hrest]
            simp only [Prod.mk.injEq, List.length_cons, List.cons_append, true_and]
            exact ⟨by omega, trivial⟩

/-! ## Claims about the status poller -/

/-- C5: on the scripted status sequence creating, processing with progress
`p1`, processing with progress `p2`, ready — with a progress callback
supplied — the poller invokes the callback exactly twice with `p1` then
`p2` (and not for the creating status), resolves successfully after the
ready status, and issues exactly four status fetches no matter what could
be fetched afterwards. -/
theorem poller_scripted_run (p1 p2 : ProcessingProgress) (extra : List FetchOutcome) :
    waitForBotReady true
      ([FetchOutcome.ok { status := .creating },
        FetchOutcome.ok { status := .processing, processing_progress := some p1 },
        FetchOutcome.ok { status := .processing, processing_progress := some p2 },
        FetchOutcome.ok { status := .ready }] ++ extra)
      = (.resolved, 4, [p1, p2]) := by
  simp [waitForBotReady]

/-- C6: whenever a poll reports status `error`, the wait rejects at that
poll and stops: the rejection message is the server-supplied
`error_message` when it is a non-empty string and the fixed generic
fallback otherwise, the number of fetches is the polls so far plus one,
and anything scripted after the error is never fetched. -/
theorem poller_error_rejects (hasCb : Bool) (s1 rest : List FetchOutcome)
    (em : Option String) (pp : Option ProcessingProgress)
    (h : ∀ o ∈ s1, nonTerminalOutcome o = true) :
    waitForBotReady hasCb
        (s1 ++ FetchOutcome.ok
          { status := .error, processing_progress := pp, error_message := em } :: rest)
      = (.rejected (jsOrElse em genericFailureMessage), s1.length + 1,
         (waitForBotReady hasCb s1).2.2) ∧
    jsOrElse (some "X failed") genericFailureMessage = "X failed" ∧
    jsOrElse none genericFailureMessage = genericFailureMessage ∧
    genericFailureMessage ≠ "" := by
  refine ⟨?_, rfl, rfl, by decide⟩
  rw [waitForBotReady_append hasCb _ s1 h]
  simp [waitForBotReady]

/-- Witness for `poller_error_rejects`: one creating poll, then an error
with message `"X failed"`. -/
theorem poller_error_rejects_witness :
    (∀ o ∈ ([FetchOutcome.ok { status := .creating }] : List FetchOutcome),
        nonTerminalOutcome o = true) ∧
    (waitForBotReady true
        ([FetchOutcome.ok { status := .creating }] ++ FetchOutcome.ok
          { status := .error, processing_progress := none,
            error_message := some "X failed" } :: [])
      = (.rejected (jsOrElse (some "X failed") genericFailureMessage),
         [FetchOutcome.ok { status := .creating }].length + 1,
         (waitForBotReady true [FetchOutcome.ok { status := .creating }]).2.2) ∧
     jsOrElse (some "X failed") genericFailureMessage = "X failed" ∧
     jsOrElse none genericFailureMessage = genericFailureMessage ∧
     genericFailureMessage ≠ "") :=
  ⟨by decide,
   poller_error_rejects true [FetchOutcome.ok { status := .creating }] []
     (some "X failed") none (by decide)⟩

/-- C7: when the status fetch of a poll attempt itself throws, the whole
wait rejects immediately with that error: no further poll is scheduled and
the failed attempt is not retried — the fetch count is the polls so far
plus one and nothing after the failing attempt is consumed. -/
theorem poller_transport_error (hasCb : Bool) (s1 rest : List FetchOutcome)
    (e : String) (h : ∀ o ∈ s1, nonTerminalOutcome o = true) :
    waitForBotReady hasCb (s1 ++ FetchOutcome.fail e :: rest)
      = (.rejected e, s1.length + 1, (waitForBotReady hasCb s1).2.2) := by
  rw [waitForBotReady_append hasCb _ s1 h]
  simp [waitForBotReady]

/-- Witness for `poller_transport_error`: one creating poll, then a fetch
that throws `"network down"`. -/
theorem poller_transport_error_witness :
    (∀ o ∈ ([FetchOutcome.ok { status := .creating }] : List FetchOutcome),
        nonTerminalOutcome o = true) ∧
    waitForBotReady true
        ([FetchOutcome.ok { status := .creating }] ++
          FetchOutcome.fail "network down" :: [FetchOutcome.ok { status := .ready }])
      = (.rejected "network down",
         [FetchOutcome.ok { status := .creating }].length + 1,
         (waitForBotReady true [FetchOutcome.ok { status := .creating }]).2.2) :=
  ⟨by decide,
   poller_transport_error true [FetchOutcome.ok { status := .creating }]
     [FetchOutcome.ok { status := .ready }] "network down" (by decide)⟩

/-! ## Lemmas about the title derivation -/

theorem wellFormedUtf16_of_no_surrogates :
    ∀ l : List Nat, (∀ u ∈ l, u < 55296 ∨ 57344 ≤ u) → wellFormedUtf16 l = true
  | [], _ => rfl
  | [u], h => by
    have hu := h u (List.mem_cons_self u [])
    simp [wellFormedUtf16, hu]
  | u :: v :: rest, h => by
    have hu := h u (List.mem_cons_self u (v :: rest))
    have hrest : ∀ w ∈ v :: rest, w < 55296 ∨ 57344 ≤ w :=
      fun w hw => h w (List.mem_cons_of_mem u hw)
    simp only [wellFormedUtf16, if_pos hu]
    exact wellFormedUtf16_of_no_surrogates (v :: rest) hrest

theorem mem_utf16Encode_bmp (s : String) (hb : ∀ c ∈ s.data, c.toNat < 65536) :
    ∀ u ∈ utf16Encode s, u < 55296 ∨ 57344 ≤ u := by
  intro u hu
  obtain ⟨x, hx, hux⟩ := List.mem_flatten.mp hu
  obtain ⟨c, hc, rfl⟩ := List.mem_map.mp hx
  have hcb := hb c hc
  simp only [utf16EncodeChar, if_pos hcb, List.mem_singleton] at hux
  subst hux
  have hval : c.toNat = c.val.toNat := rfl
  rcases c.valid with h1 | h2
  · exact Or.inl (by omega)
  · right
    omega

/-! ## Claims about the title derivation -/

/-- C8 (counterexample): the truncation can split a multi-byte character.
For a first message of 29 `a`s followed by the astral character `😀`
(U+1F600, a surrogate pair in UTF-16) and a `b`, the input is well-formed
UTF-16 and longer than the maximum, but `slice(0, 30)` cuts between the
two surrogates, so the derived title contains an unpaired high surrogate:
a split multi-byte character. -/
theorem title_truncation_splits_surrogate :
    wellFormedUtf16 (utf16Encode "aaaaaaaaaaaaaaaaaaaaaaaaaaaaa😀b") = true ∧
    titleMaxLength < (utf16Encode "aaaaaaaaaaaaaaaaaaaaaaaaaaaaa😀b").length ∧
    wellFormedUtf16 (deriveTitle (utf16Encode "aaaaaaaaaaaaaaaaaaaaaaaaaaaaa😀b")) = false := by
  decide

/-- C8 (amended): lengths are measured in UTF-16 code units, as
`String.prototype.slice` does. A first message of at most 30 code units
yields a title identical to the message; a longer one yields its first 30
code units plus the `...` marker, of exactly 30 plus 3 code units. When
every character of the message is in the Basic Multilingual Plane the cut
falls on a character boundary, but an astral character straddling the cut
is split into an unpaired surrogate (see the counterexample). -/
theorem title_truncation (s : String) :
    ((utf16Encode s).length ≤ titleMaxLength →
      deriveTitle (utf16Encode s) = utf16Encode s) ∧
    (titleMaxLength < (utf16Encode s).length →
      deriveTitle (utf16Encode s) = (utf16Encode s).take titleMaxLength ++ ellipsisMarker ∧
      (deriveTitle (utf16Encode s)).length = titleMaxLength + ellipsisMarker.length) ∧
    ((∀ c ∈ s.data, c.toNat < 65536) →
      wellFormedUtf16 (deriveTitle (utf16Encode s)) = true) := by
  refine ⟨?_, ?_, ?_⟩
  · intro hle
    unfold deriveTitle
    rw [if_neg (by omega), List.append_nil, List.take_of_length_le hle]
  · intro hlt
    constructor
    · unfold deriveTitle
      rw [if_pos hlt]
    · unfold deriveTitle
      rw [if_pos hlt, List.length_append, List.length_take]
      have hmin : min titleMaxLength (utf16Encode s).length = titleMaxLength := by omega
      rw [hmin]
  · intro hb
    apply wellFormedUtf16_of_no_surrogates
    intro u hu
    unfold deriveTitle at hu
    rcases List.mem_append.mp hu with hu | hu
    · exact mem_utf16Encode_bmp s hb u (List.take_subset _ _ hu)
    · by_cases hc : titleMaxLength < (utf16Encode s).length
      · rw [if_pos hc] at hu
        have he : ellipsisMarker = [46, 46, 46] := by decide
        rw [he] at hu
        simp only [List.mem_cons, List.not_mem_nil, or_false] at hu
        rcases hu with rfl | rfl | rfl <;> decide
      · rw [if_neg hc] at hu
        cases hu

/-- Witness for `title_truncation` at a short message, a long all-BMP
message, and the BMP boundary property. -/
theorem title_truncation_witness :
    ((utf16Encode "hi").length ≤ titleMaxLength ∧
      deriveTitle (utf16Encode "hi") = utf16Encode "hi") ∧
    (titleMaxLength < (utf16Encode "aaaaaaaaaaaaaaaaaaaaaaaaaaaaaaaaaaa").length ∧
      (deriveTitle (utf16Encode "aaaaaaaaaaaaaaaaaaaaaaaaaaaaaaaaaaa")).length
        = titleMaxLength + ellipsisMarker.length) ∧
    ((∀ c ∈ "hi".data, c.toNat < 65536) ∧
      wellFormedUtf16 (deriveTitle (utf16Encode "hi")) = true) :=
  ⟨⟨by decide, (title_truncation "hi").1 (by decide)⟩,
   ⟨by decide, ((title_truncation "aaaaaaaaaaaaaaaaaaaaaaaaaaaaaaaaaaa").2.1 (by decide)).2⟩,
   ⟨by decide, (title_truncation "hi").2.2 (by decide)⟩⟩


/-! ## Claims about the upload extension check -/

/-- C9: a selected file whose name's extension — the last `.`-separated
component, compared case-insensitively — is not one of `.pdf`, `.md`,
`.xlsx`, `.xls` is rejected locally with an error message and the handler
never reaches the upload network call, while a file with an allowed
extension passes the check and proceeds to the network call. In
particular `report.txt` is rejected locally and `report.pdf` (and
`Report.PDF`) proceed. -/
theorem upload_extension_validation (name : List Char) :
    (handleFileUpload name = .networkUpload ↔
      fileExtensionOf name ∈ allowedExtensions) ∧
    (handleFileUpload name =
        UploadAction.localError ("Unsupported file type. Allowed: ".data ++
          List.intercalate ", ".data allowedExtensions) ↔
      fileExtensionOf name ∉ allowedExtensions) ∧
    (handleFileUpload "report.txt".data =
      UploadAction.localError "Unsupported file type. Allowed: .pdf, .md, .xlsx, .xls".data) ∧
    handleFileUpload "report.pdf".data = .networkUpload ∧
    handleFileUpload "Report.PDF".data = .networkUpload := by
  refine ⟨?_, ?_, by decide, by decide, by decide⟩
  · unfold handleFileUpload
    by_cases hmem : fileExtensionOf name ∈ allowedExtensions
    · simp [hmem]
    · simp [hmem]
  · unfold handleFileUpload
    by_cases hmem : fileExtensionOf name ∈ allowedExtensions
    · simp [hmem]
    · simp [hmem]

/-! ## Lemmas about the chat history store -/

theorem mem_ids_iff_any (session : StoredChatSession)
    (prev : List StoredChatSession) :
    session.id ∈ sessionIds prev ↔
      (prev.any (fun s => s.id == session.id)) = true := by
  simp [sessionIds, List.any_eq_true, List.mem_map]

theorem ids_map_replace (now : Nat) (session : StoredChatSession)
    (prev : List StoredChatSession) :
    sessionIds (prev.map (fun s =>
        if s.id == session.id then { session with updatedAt := now } else s))
      = sessionIds prev := by
  unfold sessionIds
  rw [List.map_map]
  apply List.map_congr_left
  intro s _
  show (if s.id == session.id then { session with updatedAt := now } else s).id = s.id
  by_cases hs : s.id = session.id
  · rw [if_pos (by simp [hs])]
    exact hs.symm
  · rw [if_neg (by simp [hs])]

theorem saveSession_perm_of_mem (now : Nat) (session : StoredChatSession)
    (prev : List StoredChatSession) (hmem : session.id ∈ sessionIds prev) :
    List.Perm (saveSession now session prev)
      (prev.map (fun s =>
        if s.id == session.id then { session with updatedAt := now } else s)) := by
  unfold saveSession sortSessions
  rw [if_pos ((mem_ids_iff_any session prev).mp hmem)]
  exact List.perm_insertionSort _ _

theorem saveSession_perm_of_not_mem (now : Nat) (session : StoredChatSession)
    (prev : List StoredChatSession) (hmem : session.id ∉ sessionIds prev) :
    List.Perm (saveSession now session prev) (prev ++ [session]) := by
  unfold saveSession sortSessions
  rw [if_neg (fun hc => hmem ((mem_ids_iff_any session prev).mpr hc))]
  exact List.perm_insertionSort _ _

theorem saveSession_nodup (now : Nat) (session : StoredChatSession)
    (prev : List StoredChatSession) (h : (sessionIds prev).Nodup) :
    (sessionIds (saveSession now session prev)).Nodup := by
  by_cases hmem : session.id ∈ sessionIds prev
  · have hperm := (saveSession_perm_of_mem now session prev hmem).map
      (fun s => s.id)
    rw [show ((prev.map (fun s => if s.id == session.id
        then { session with updatedAt := now } else s)).map (fun s => s.id))
        = sessionIds prev from ids_map_replace now session prev] at hperm
    exact hperm.nodup_iff.mpr h
  · have hperm := (saveSession_perm_of_not_mem now session prev hmem).map
      (fun s => s.id)
    refine hperm.nodup_iff.mpr ?_
    rw [List.map_append]
    simp only [List.map_cons, List.map_nil]
    rw [List.nodup_append]
    exact ⟨h, List.nodup_singleton _,
      fun a ha hb => hmem (by simpa using (List.mem_singleton.mp hb ▸ ha))⟩

theorem deleteSession_nodup (sid : String) (prev : List StoredChatSession)
    (h : (sessionIds prev).Nodup) :
    (sessionIds (deleteSession sid prev)).Nodup := by
  have hsub : List.Sublist (sessionIds (deleteSession sid prev)) (sessionIds prev) := by
    unfold sessionIds deleteSession
    exact (List.filter_sublist prev).map (fun s => s.id)
  exact h.sublist hsub

theorem applyOps_foldl_nodup (ops : List HistoryOp) :
    ∀ store : List StoredChatSession, (sessionIds store).Nodup →
      (sessionIds (ops.foldl applyOp store)).Nodup := by
  induction ops with
  | nil => exact fun store h => h
  | cons op ops ih =>
    intro store h
    cases op with
    | save now session => exact ih _ (saveSession_nodup now session store h)
    | delete sid => exact ih _ (deleteSession_nodup sid store h)

/-! ## Claim about the chat history store -/

/-- C10: the stored session list never holds two sessions with the same
id. `saveSession` with an id already present replaces that entry —
re-stamping `updatedAt` — keeping the length unchanged; with a new id it
appends exactly one entry. `deleteSession` preserves the invariant, and
any sequence of save and delete operations from the empty store keeps the
ids duplicate-free. -/
theorem chat_history_no_duplicate_ids (now : Nat) (session : StoredChatSession)
    (prev : List StoredChatSession) (sid : String) (ops : List HistoryOp)
    (h : (sessionIds prev).Nodup) :
    (sessionIds (saveSession now session prev)).Nodup ∧
    (sessionIds (deleteSession sid prev)).Nodup ∧
    (session.id ∈ sessionIds prev →
      (saveSession now session prev).length = prev.length ∧
      { session with updatedAt := now } ∈ saveSession now session prev) ∧
    (session.id ∉ sessionIds prev →
      (saveSession now session prev).length = prev.length + 1 ∧
      session ∈ saveSession now session prev) ∧
    (sessionIds (applyOps ops)).Nodup := by
  refine ⟨saveSession_nodup now session prev h, deleteSession_nodup sid prev h,
    ?_, ?_, applyOps_foldl_nodup ops [] (by simp [sessionIds])⟩
  · intro hmem
    have hperm := saveSession_perm_of_mem now session prev hmem
    constructor
    · rw [hperm.length_eq, List.length_map]
    · rw [hperm.mem_iff]
      obtain ⟨s0, hs0, hid⟩ := by
        simpa [sessionIds, List.mem_map] using hmem
      refine List.mem_map.mpr ⟨s0, hs0, ?_⟩
      rw [if_pos (by simp [hid])]
  · intro hmem
    have hperm := saveSession_perm_of_not_mem now session prev hmem
    constructor
    · rw [hperm.length_eq, List.length_append, List.length_singleton]
    · rw [hperm.mem_iff]
      exact List.mem_append_right _ (List.mem_singleton.mpr rfl)

/-- Witness for `chat_history_no_duplicate_ids` on a concrete store of two
sessions, upserting the existing id `s1`. -/
theorem chat_history_no_duplicate_ids_witness :
    (sessionIds ([⟨"s1", "t1", [], 0, 3⟩, ⟨"s2", "t2", [], 0, 5⟩] :
        List StoredChatSession)).Nodup ∧
    (⟨"s1", "t0", [], 0, 1⟩ : StoredChatSession).id ∈
      sessionIds ([⟨"s1", "t1", [], 0, 3⟩, ⟨"s2", "t2", [], 0, 5⟩] :
        List StoredChatSession) ∧
    (saveSession 7 ⟨"s1", "t0", [], 0, 1⟩
        [⟨"s1", "t1", [], 0, 3⟩, ⟨"s2", "t2", [], 0, 5⟩]).length = 2 ∧
    (⟨"s1", "t0", [], 0, 7⟩ : StoredChatSession) ∈
      saveSession 7 ⟨"s1", "t0", [], 0, 1⟩
        [⟨"s1", "t1", [], 0, 3⟩, ⟨"s2", "t2", [], 0, 5⟩] :=
  ⟨by decide, by decide,
   ((chat_history_no_duplicate_ids 7 ⟨"s1", "t0", [], 0, 1⟩
      [⟨"s1", "t1", [], 0, 3⟩, ⟨"s2", "t2", [], 0, 5⟩] "s2" []
      (by decide)).2.2.1 (by decide)).1,
   ((chat_history_no_duplicate_ids 7 ⟨"s1", "t0", [], 0, 1⟩
      [⟨"s1", "t1", [], 0, 3⟩, ⟨"s2", "t2", [], 0, 5⟩] "s2" []
      (by decide)).2.2.1 (by decide)).2⟩

end LlmAppProto
